import Mathlib

/-!
Verification development for the `hachispin/learning-projects` repository.

The file shallowly embeds the parts of the repository that the claims
C1..C10 are about and proves (or refutes) each claim:

* `cpp/learncpp/unit24_q3` — the RPG exercise's `Player::purchase_item`.
* `c/my_vector` — the C dynamic-array library, in particular
  `Vector_extend_vec` and `Vector_extend_arr`.
* `cpp/learncpp/unit16_q5.cpp` — the hangman game's `GameWord::guess_letter`.
* `python/mdex_dl` / `python/mdex_tool` — the manga-download core
  (throttle tracker, resilient executor, paginated lister, catalog
  builder, download orchestrator).  Only the READMEs and `config.toml`
  of that core are present in the repository snapshot, so those
  components are modelled from the specification text; `config.toml`
  itself is embedded verbatim.

Machine integers are modelled as `Int`/`Nat` (no claim involves
overflow), C++ exceptions as `Option`/flagged results, and C
out-of-bounds reads as `Option`-valued lookups.
-/

/-! ## Part 1: `unit24_q3` — `Player::purchase_item` (claim C8)

Source: `src/unnamed/part_002` (the RPG exercise).  `Potion` is a
`struct {std::string name; int cost;}`; `Player` holds a name, a
`std::vector<Potion>` inventory and an `int` gold count.  C++ `int` is
modelled as `Int`; no claim exercises overflow. -/

structure Potion where
  name : String
  cost : Int
deriving Repr, DecidableEq

structure Player where
  name : String
  inventory : List Potion
  gold : Int
deriving Repr, DecidableEq

/-- Embedding of `Player::purchase_item(const Potion& p)`.  The C++
body throws `std::invalid_argument` when `p.cost > gold`, *before* any
mutation, so the thrown case is modelled as the pair
`(threw = true, unchanged player)`; otherwise it executes
`inventory.push_back(p); gold -= p.cost;`, modelled as
`(false, updated player)`. -/
def Player.purchase_item (pl : Player) (p : Potion) : Bool × Player :=
  if p.cost > pl.gold then
    (true, pl)
  else
    (false, { pl with inventory := pl.inventory ++ [p], gold := pl.gold - p.cost })

/-! ## Part 2: `c/my_vector` — `Vector_extend_vec` (claim C9)

Source: `src/c/my_vector/main.c` (file contains the implementation,
`my_vector.c` content) lines 229-237 and `Vector_extend_arr` lines
207-226.  A `struct Vector`'s logical contents (`ptr[0..length)`) are
modelled as a `List Int`; reading `ptr[i]` with `i >= length` is an
out-of-bounds read (undefined behaviour), modelled as a `none`-valued
lookup, which makes the whole extend operation `Option`-valued. -/

/-- Embedding of `Vector_extend_vec(struct Vector* v, const struct Vector* ext)`:

    size_t start = v->length;
    v->length += ext->length;
    _Vector_check_expand(v);
    for (size_t i = start; i < v->length; ++i)
        v->ptr[i] = ext->ptr[i];

The loop index `i` runs over `start + k` for `k < ext->length` and the
body reads `ext->ptr[start + k]` (not `ext->ptr[k]`).  Writing slot
`start + k` of `v` appends; the read is `Option`-valued because
`start + k` can exceed `ext`'s length. -/
def Vector_extend_vec (v ext : List Int) : Option (List Int) :=
  match (List.range ext.length).mapM (fun k => ext.get? (v.length + k)) with
  | some copied => some (v ++ copied)
  | none => none

/-- Embedding of `Vector_extend_arr(struct Vector* v, const int* ext, size_t length)`:

    if (length == 0) return;
    size_t start = v->length;
    _Vector_rshift(v, v->length - 1, length);
    for (size_t i = start; i < v->length; ++i)
        memcpy(&v->ptr[i], &ext[i - start], sizeof(int));

Here the read index is `i - start = k`, always within `ext`. -/
def Vector_extend_arr (v ext : List Int) : Option (List Int) :=
  if ext.length = 0 then some v
  else
    match (List.range ext.length).mapM (fun k => ext.get? k) with
    | some copied => some (v ++ copied)
    | none => none

/-! ## Part 3: `unit16_q5.cpp` — hangman `GameWord::guess_letter` (claim C10)

Source: `src/cpp/learncpp/unit16_q5.cpp` lines 95-116 plus the helper
functions `is_correct_guess`, `reveal_letter`, `update_win_status`.
`std::set<char> guesses` is modelled as a `List Char` used only through
membership; `attempts` is a C++ `int`, modelled as `Int`. -/

inductive GuessStatus where
  | alreadyGuessed
  | correct
  | incorrect
deriving Repr, DecidableEq

structure GameWord where
  guesses : List Char
  complete_word : List Char
  built_word : List Char
  wrong_guesses : List Char
  attempts : Int
  win_state : Bool
deriving Repr, DecidableEq

/-- Embedding of the helper `is_correct_guess(char letter)`: linear scan
of `complete_word` for `letter`. -/
def GameWord.is_correct_guess (g : GameWord) (letter : Char) : Bool :=
  g.complete_word.contains letter

/-- Embedding of `reveal_letter(char letter)`: for every index `i` with
`complete_word[i] == letter`, set `built_word[i] = letter`. -/
def GameWord.reveal_letter (g : GameWord) (letter : Char) : List Char :=
  List.zipWith (fun c b => if c = letter then letter else b) g.complete_word g.built_word

/-- Embedding of `GameWord::guess_letter(char letter)`.  The guard
`attempts <= 0` throws `std::logic_error` (modelled as `none`); an
already-guessed letter returns `AlreadyGuessed` before any mutation;
otherwise the letter is inserted into `guesses` and the incorrect path
appends to `wrong_guesses` and decrements `attempts` while the correct
path reveals the letter and recomputes `win_state`
(`update_win_status`). -/
def GameWord.guess_letter (g : GameWord) (letter : Char) :
    Option (GuessStatus × GameWord) :=
  if g.attempts ≤ 0 then
    none
  else if g.guesses.contains letter then
    some (.alreadyGuessed, g)
  else if ¬ g.is_correct_guess letter then
    some (.incorrect,
      { g with
        guesses := letter :: g.guesses,
        wrong_guesses := g.wrong_guesses ++ [letter],
        attempts := g.attempts - 1 })
  else
    some (.correct,
      { g with
        guesses := letter :: g.guesses,
        built_word := g.reveal_letter letter,
        win_state := g.reveal_letter letter = g.complete_word })

/-! ## Part 4: `python/mdex_dl/config.toml` (claim C7)

The configuration file is present verbatim in the repository
(`src/python/mdex_dl/config.toml`); it is embedded below as a list of
`(section, key, value)` triples, in file order. -/

/-- The `config.toml` of `mdex_dl`, embedded entry by entry as
`(section, key, raw value)` triples. -/
def configToml : List (String × String × String) :=
  [("reqs", "api_root", "https://api.mangadex.org"),
   ("reqs", "report_endpoint", "https://api.mangadex.network/report"),
   ("reqs", "get_timeout", "10"),
   ("reqs", "post_timeout", "20"),
   ("retry", "max_retries", "5"),
   ("retry", "backoff_factor", "1"),
   ("retry", "backoff_jitter", "0.5"),
   ("retry", "backoff_max", "30"),
   ("save", "location", "mdex_save"),
   ("save", "max_title_length", "60"),
   ("images", "use_datasaver", "false"),
   ("search", "results_per_page", "10"),
   ("search", "include_pornographic", "false"),
   ("cli", "options_per_row", "3"),
   ("cli", "use_ansi", "true"),
   ("cli", "time_to_read", "1"),
   ("logging", "enabled", "true"),
   ("logging", "level", "INFO"),
   ("logging", "location", "logs")]

/-- All key names appearing in `config.toml`, in file order. -/
def configKeys : List String :=
  configToml.map (fun e => e.2.1)

/-- `true` iff some `config.toml` entry has key name `k`. -/
def hasConfigKey (k : String) : Bool :=
  configKeys.contains k

/-- `true` iff the first character list is a prefix of the second. -/
def startsWithChars : List Char → List Char → Bool
  | [], _ => true
  | _ :: _, [] => false
  | a :: as, b :: bs => a = b && startsWithChars as bs

/-- `true` iff `needle` occurs as a contiguous run inside `hay`. -/
def hasSubChars (needle : List Char) : List Char → Bool
  | [] => startsWithChars needle []
  | b :: bs => startsWithChars needle (b :: bs) || hasSubChars needle bs

/-- `true` iff `needle` occurs as a substring of `k`. -/
def keyMentions (needle k : String) : Bool :=
  hasSubChars needle.toList k.toList

/-- Modelled from the spec: §6 "Config collaborator supplies, at
minimum: `max_retries`, `backoff_factor`, `backoff_jitter`,
`backoff_max`, `request_timeout`, `page_size`, `language_filter`,
`concurrency_limit`, `save_root_path`, `max_title_length`".  For each
role the spec names, this maps it to the `config.toml` key(s) that
could supply it (`request_timeout` → `get_timeout`/`post_timeout`,
`page_size` → `results_per_page`, `save_root_path` → `save.location`);
for `language_filter` and `concurrency_limit`, which have no direct
counterpart, it searches every key name for any language- or
concurrency-related fragment. -/
def roleProvided : String → Bool
  | "max_retries" => hasConfigKey "max_retries"
  | "backoff_factor" => hasConfigKey "backoff_factor"
  | "backoff_jitter" => hasConfigKey "backoff_jitter"
  | "backoff_max" => hasConfigKey "backoff_max"
  | "request_timeout" => hasConfigKey "get_timeout" || hasConfigKey "post_timeout"
  | "page_size" => hasConfigKey "results_per_page"
  | "save_root_path" => hasConfigKey "location"
  | "max_title_length" => hasConfigKey "max_title_length"
  | "language_filter" => configKeys.any (fun k => keyMentions "lang" k)
  | "concurrency_limit" =>
      configKeys.any (fun k =>
        keyMentions "concurr" k || keyMentions "parallel" k ||
        keyMentions "worker" k || keyMentions "thread" k)
  | _ => false

/-! ## Part 5: Throttle Tracker and Resilient Request Executor
(claims C1, C3, C4)

The Python implementation of `mdex_dl.api.client` is not part of the
repository snapshot (only its README, log excerpt and `config.toml`
are), so the tracker and executor are modelled from the specification,
§4.1-§4.2.  Time is a logical rational clock; the transport and the
per-attempt jitter draws are oracles passed in as functions. -/

/-- Modelled from the spec: §3 `RequestOutcome` — result of one attempt,
`Success(status, ...)`, `RateLimited(retry_after)` (absolute UNIX
timestamp), `TransientFailure`, or `FatalFailure`. -/
inductive RequestOutcome where
  | success (status : Nat)
  | rateLimited (retry_after : ℚ)
  | transientFailure
  | fatalFailure (status : Nat)
deriving Repr, DecidableEq

/-- Modelled from the spec: §6 transport collaborator — one raw
response: an HTTP status (with the optional absolute-timestamp
rate-limit header) or a network-level error. -/
inductive TransportResp where
  | http (status : Nat) (retryAfter : Option ℚ)
  | netError
deriving Repr, DecidableEq

/-- Modelled from the spec: §4.2 step 2 classification — HTTP 429 →
`RateLimited` with the header timestamp (§6: a 429 without the header
is treated as a `TransientFailure`); HTTP 5xx or network error →
`TransientFailure`; HTTP 4xx other than 429 → `FatalFailure`;
everything else → `Success`. -/
def classify : TransportResp → RequestOutcome
  | .netError => .transientFailure
  | .http s h =>
      if s = 429 then
        match h with
        | some t => .rateLimited t
        | none => .transientFailure
      else if 500 ≤ s then .transientFailure
      else if 400 ≤ s then .fatalFailure s
      else .success s

/-- Modelled from the spec: §3 `ThrottleState` — per endpoint key, an
optional absolute `blocked_until` timestamp and a consecutive-failure
count. -/
structure ThrottleState where
  blocked_until : Option ℚ
  consecutive_failures : Nat
deriving Repr, DecidableEq

/-- Modelled from the spec: §4.1 `may_request(key)` — false exactly when
`blocked_until` is set and in the future. -/
def ThrottleState.may_request (st : ThrottleState) (now : ℚ) : Bool :=
  match st.blocked_until with
  | none => true
  | some t => t ≤ now

/-- Modelled from the spec: §4.1 `record(key, outcome)` — on
`RateLimited(retry_after)` set `blocked_until := retry_after`; on
`Success` clear `blocked_until` and reset `consecutive_failures`; on
`TransientFailure` increment `consecutive_failures` and leave
`blocked_until` alone; `FatalFailure` is surfaced immediately and
changes nothing. -/
def ThrottleState.record (st : ThrottleState) (o : RequestOutcome) : ThrottleState :=
  match o with
  | .success _ => { st with blocked_until := none, consecutive_failures := 0 }
  | .rateLimited t => { st with blocked_until := some t }
  | .transientFailure =>
      { st with consecutive_failures := st.consecutive_failures + 1 }
  | .fatalFailure _ => st

/-- Modelled from the spec: §6 config collaborator — the retry-relevant
configuration values. -/
structure RetryConfig where
  max_retries : Nat
  backoff_factor : ℚ
  backoff_jitter : ℚ
  backoff_max : ℚ
deriving Repr, DecidableEq

/-- The shipped configuration, from `config.toml` `[retry]`:
`max_retries = 5`, `backoff_factor = 1`, `backoff_jitter = 0.5`,
`backoff_max = 30`. -/
def shippedRetryConfig : RetryConfig :=
  { max_retries := 5
    backoff_factor := 1
    backoff_jitter := 1 / 2
    backoff_max := 30 }

/-- Modelled from the spec: §4.2 step 4 — on `TransientFailure`, sleep
for `backoff_factor * 2^(attempt-1)` seconds, clamped to `backoff_max`,
with jitter `ε` (drawn uniformly from `[-backoff_jitter,
backoff_jitter]`) applied. -/
def backoffDelay (cfg : RetryConfig) (attempt : Nat) (ε : ℚ) : ℚ :=
  min (cfg.backoff_factor * 2 ^ (attempt - 1)) cfg.backoff_max + ε

/-- Modelled from the spec: §4.2 step 1 — if `may_request` is false,
sleep until `blocked_until`, then proceed. -/
def waitIfBlocked (st : ThrottleState) (now : ℚ) : ℚ :=
  if st.may_request now then now else (st.blocked_until.getD now)

/-- One send event of the executor simulation: the (logical) time the
request went out and the classified outcome it produced. -/
structure ExecEvent where
  time : ℚ
  outcome : RequestOutcome
deriving Repr, DecidableEq

/-- Modelled from the spec: §4.2 contract — the executor returns the
successful response, the fatal error, or `ExhaustedError` carrying the
last cause. -/
inductive ExecResult where
  | ok (status : Nat)
  | fatal (status : Nat)
  | exhausted (lastCause : Option RequestOutcome)
deriving Repr, DecidableEq

/-- Modelled from the spec: §4.2 `execute` loop body, one recursion step
per attempt.  `transport` gives the raw response to each attempt,
`ε` the jitter draw for each attempt; `remaining` counts attempts left,
`attempt` is the 1-based attempt number, `last` the last observed
cause.  Each step waits out `blocked_until` if set (step 1), sends and
classifies (step 2), records the outcome on the tracker (step 3), then
returns on `Success`/`FatalFailure`, loops immediately on `RateLimited`
(the wait happens on the next iteration), or sleeps the backoff delay
and loops on `TransientFailure` (step 4); when attempts exhaust it
returns `ExhaustedError` with the last cause (step 5).  Returns the
list of send events plus the final result. -/
def execGo (transport : Nat → TransportResp) (ε : Nat → ℚ) (cfg : RetryConfig) :
    Nat → Nat → Option RequestOutcome → ThrottleState → ℚ →
    List ExecEvent × ExecResult
  | 0, _, last, _, _ => ([], .exhausted last)
  | remaining + 1, attempt, _, st, now =>
      let sendTime := waitIfBlocked st now
      match classify (transport attempt) with
      | .success s => ([⟨sendTime, .success s⟩], .ok s)
      | .fatalFailure s => ([⟨sendTime, .fatalFailure s⟩], .fatal s)
      | .rateLimited t =>
          let r := execGo transport ε cfg remaining (attempt + 1)
            (some (.rateLimited t)) (st.record (.rateLimited t)) sendTime
          (⟨sendTime, .rateLimited t⟩ :: r.1, r.2)
      | .transientFailure =>
          let r := execGo transport ε cfg remaining (attempt + 1)
            (some .transientFailure) (st.record .transientFailure)
            (sendTime + backoffDelay cfg attempt (ε attempt))
          (⟨sendTime, .transientFailure⟩ :: r.1, r.2)

/-- Modelled from the spec: §4.2 `execute(key, build_request)` — run the
attempt loop with `max_retries` attempts from a starting tracker state
and starting clock. -/
def execute (cfg : RetryConfig) (transport : Nat → TransportResp) (ε : Nat → ℚ)
    (st : ThrottleState) (t0 : ℚ) : List ExecEvent × ExecResult :=
  execGo transport ε cfg cfg.max_retries 1 none st t0

/-- `true` iff the event is a rate-limited (HTTP 429) response. -/
def ExecEvent.isRateLimited (e : ExecEvent) : Bool :=
  match e.outcome with
  | .rateLimited _ => true
  | _ => false

/-- A mocked transport whose first attempt hits a network error and
whose later attempts succeed with HTTP 200. -/
def exampleTransportTransient : Nat → TransportResp :=
  fun att => if att = 1 then .netError else .http 200 none

/-- The all-zero jitter draw. -/
def zeroJitter : Nat → ℚ :=
  fun _ => 0

/-! ## Part 6: Paginated Lister (claim C5)

Modelled from the spec, §4.3: the implementation is not in the
repository snapshot.  The API is an oracle `server : Nat → List α × Nat`
mapping a requested offset to that page's records and the authoritative
`total`. -/

/-- Modelled from the spec: §4.3 loop — "continue requesting subsequent
offsets (`offset += page_size`) ... until `offset >= total`".  `fuel`
bounds the recursion (the caller passes `total`, which suffices for any
positive page size); returns the requested offsets and the concatenated
records. -/
def listLoop {α : Type} (server : Nat → List α × Nat) (page_size total : Nat) :
    Nat → Nat → List Nat × List α
  | _, 0 => ([], [])
  | offset, fuel + 1 =>
      if offset < total then
        let page := server offset
        let rest := listLoop server page_size total (offset + page_size) fuel
        (offset :: rest.1, page.1 ++ rest.2)
      else
        ([], [])

/-- Modelled from the spec: §4.3 `list_all(endpoint, page_size)` —
request offset 0, read `total` from the first page, then loop;
returns the requested offsets together with the eagerly materialized
record sequence in server order. -/
def list_all {α : Type} (server : Nat → List α × Nat) (page_size : Nat) :
    List Nat × List α :=
  let first := server 0
  let rest := listLoop server page_size first.2 page_size first.2
  (0 :: rest.1, first.1 ++ rest.2)

/-! ## Part 7: Chapter Catalog Builder (claim C2)

Modelled from the spec, §4.4 and §3 (`ChapterRecord`, `Chapter`): the
implementation is not in the repository snapshot. -/

/-- Modelled from the spec: §3 `ChapterRecord` — id, raw chapter-number
string (absence modelled as `""`), optional title, language code,
scanlation-group id, publish timestamp. -/
structure ChapterRecord where
  id : Nat
  num : String
  title : Option String
  lang : String
  group : Nat
  publishAt : Nat
deriving Repr, DecidableEq

/-- `true` for the characters a parseable chapter-number string may
contain: digits and the dot. -/
def isNumChar (c : Char) : Bool :=
  c.isDigit || c = '.'

/-- Value of a digit string read in base 10 (non-digits ignored here;
callers only apply this to digit runs). -/
def digitsVal (s : String) : Nat :=
  s.toList.foldl (fun acc c => acc * 10 + (c.toNat - 48)) 0

/-- Numeric value of a digits-and-dots chapter-number string: the run
before the first dot is the integer part, the run after it the decimal
part. -/
def chapterValue (s : String) : ℚ :=
  match s.splitOn "." with
  | [] => 0
  | [intPart] => digitsVal intPart
  | intPart :: fracPart :: _ =>
      digitsVal intPart + (digitsVal fracPart : ℚ) / 10 ^ fracPart.length

/-- Modelled from the spec: §4.4 — a chapter-number string "fails
numeric parse (empty, or contains non-digit/non-dot characters)";
otherwise it parses to its numeric value. -/
def numericParse (s : String) : Option ℚ :=
  if s.isEmpty then none
  else if s.toList.all isNumChar then some (chapterValue s)
  else none

/-- Modelled from the spec: §3 `Chapter` (catalog entry) — the group of
competing records for one chapter number, the deterministically chosen
record, the sort key (`none` = "Unknown", sorting last), and the
display label. -/
structure Chapter where
  members : List ChapterRecord
  chosen : ChapterRecord
  sortKey : Option ℚ
  label : String
deriving Repr, DecidableEq

/-- Modelled from the spec: §3 — display label `"Ch. <number>"` or
`"Ch. Unknown"`, plus the title if present. -/
def chapterLabel (key : Option ℚ) (numStr : String) (title : Option String) : String :=
  let base :=
    match key with
    | none => "Ch. Unknown"
    | some _ => "Ch. " ++ numStr
  match title with
  | none => base
  | some t => base ++ " " ++ t

/-- Modelled from the spec: §4.4 — among competing releases, select the
one with the earliest publish timestamp; the strict comparison keeps
the earlier list element on ties, so the choice is deterministic. -/
def chooseRelease (r : ChapterRecord) (rest : List ChapterRecord) : ChapterRecord :=
  rest.foldl (fun best c => if c.publishAt < best.publishAt then c else best) r

/-- Sort order on catalog entries: ascending numeric value, "Unknown"
entries after all numeric entries, ties broken by the chosen record's
publish timestamp (spec §4.4). -/
def chapterLEb (a b : Chapter) : Bool :=
  match a.sortKey, b.sortKey with
  | some qa, some qb => qa < qb || (qa = qb && a.chosen.publishAt ≤ b.chosen.publishAt)
  | some _, none => true
  | none, some _ => false
  | none, none => a.chosen.publishAt ≤ b.chosen.publishAt

/-- Modelled from the spec: §4.4 `build(records, language_filter)` —
drop records whose language differs from the filter; group the
remaining records by parsed chapter number, each failed-parse record
becoming its own singleton "Unknown" group; choose one release per
group; sort. -/
def build (records : List ChapterRecord) (language_filter : String) : List Chapter :=
  let kept := records.filter (fun r => r.lang = language_filter)
  let keys := (kept.filterMap (fun r => numericParse r.num)).dedup
  let numbered := keys.filterMap (fun q =>
    match kept.filter (fun r => numericParse r.num = some q) with
    | [] => none
    | m :: rest =>
        let c := chooseRelease m rest
        some { members := m :: rest, chosen := c, sortKey := some q,
               label := chapterLabel (some q) c.num c.title })
  let unknowns := (kept.filter (fun r => numericParse r.num = none)).map (fun r =>
    { members := [r], chosen := r, sortKey := none,
      label := chapterLabel none r.num r.title })
  List.insertionSort (fun a b => chapterLEb a b = true) (numbered ++ unknowns)

/-! ## Part 8: Download Orchestrator (claim C6)

Modelled from the spec, §4.5: the implementation is not in the
repository snapshot.  Per-page transfer outcomes (each page having
independently retried through the executor) are an oracle
`fetch : Nat → PageResult`; the pages written to disk are tracked as
the list of page indices whose file exists. -/

/-- Modelled from the spec: §3 `DownloadResult` per page — `Ok(bytes)`
or `Failed`. -/
inductive PageResult where
  | ok (bytes : Nat)
  | failed
deriving Repr, DecidableEq

/-- Modelled from the spec: §3/§4.5 per-chapter `DownloadResult` —
complete flag, the missing page indices, and the page indices saved on
disk. -/
structure ChapterResult where
  complete : Bool
  missing : List Nat
  saved : List Nat
deriving Repr, DecidableEq

/-- Modelled from the spec: §4.5 — walk the manifest's page indices,
writing each `Ok` page to disk and recording each `Failed` page as
missing; returns `(saved, missing)`. -/
def downloadPages (fetch : Nat → PageResult) : List Nat → List Nat × List Nat
  | [] => ([], [])
  | i :: rest =>
      let r := downloadPages fetch rest
      match fetch i with
      | .ok _ => (i :: r.1, r.2)
      | .failed => (r.1, i :: r.2)

/-- Modelled from the spec: §4.5 `download(chapter, manifest, ...)` —
download every page of the manifest, keep successful pages on disk, and
mark the chapter complete exactly when no page is missing. -/
def download (fetch : Nat → PageResult) (manifest : List String) : ChapterResult :=
  let r := downloadPages fetch (List.range manifest.length)
  { complete := r.2.isEmpty, missing := r.2, saved := r.1 }

/-! ## Theorems -/

/-- C8: `Player::purchase_item(q)` throws `std::invalid_argument` exactly
when `q.cost > gold`; when it throws, gold and inventory (and the name)
are unchanged; when it does not throw, `q` is appended to the inventory
and gold decreases by exactly `q.cost`, hence the new gold is
nonnegative (the guard guarantees `q.cost ≤ gold`). -/
theorem C8_purchase_item_spec (pl : Player) (p : Potion) :
    ((pl.purchase_item p).1 = true ↔ p.cost > pl.gold) ∧
    ((pl.purchase_item p).1 = true → (pl.purchase_item p).2 = pl) ∧
    ((pl.purchase_item p).1 = false →
      (pl.purchase_item p).2.inventory = pl.inventory ++ [p] ∧
      (pl.purchase_item p).2.gold = pl.gold - p.cost ∧
      (pl.purchase_item p).2.name = pl.name ∧
      0 ≤ (pl.purchase_item p).2.gold) := by
  unfold Player.purchase_item
  by_cases h : p.cost > pl.gold
  · simp [h]
  · simp [h]
    omega

/-- C8 witness: a concrete purchase with enough gold succeeds and leaves
nonnegative gold; obtained by instantiating `C8_purchase_item_spec`. -/
theorem C8_purchase_item_spec_witness :
    ((Player.mk "hero" [] 100).purchase_item (Potion.mk "potion" 30)).1 = false ∧
    ((Player.mk "hero" [] 100).purchase_item (Potion.mk "potion" 30)).2.gold = 70 ∧
    0 ≤ ((Player.mk "hero" [] 100).purchase_item (Potion.mk "potion" 30)).2.gold := by
  have h := C8_purchase_item_spec (Player.mk "hero" [] 100) (Potion.mk "potion" 30)
  have hf : ((Player.mk "hero" [] 100).purchase_item (Potion.mk "potion" 30)).1 = false := by
    decide
  refine ⟨hf, ?_, (h.2.2 hf).2.2.2⟩
  have := (h.2.2 hf).2.1
  rw [this]
  decide

/-- C9: evaluation of `Vector_extend_vec` at the failing input
`v = [10]`, `ext = [20]`.  The copy loop reads `ext->ptr[start + k]`
instead of `ext->ptr[k]`, so for a nonempty `v` it reads past the end
of `ext` (undefined behaviour, modelled as `none`) instead of producing
`[10, 20]`; the sibling `Vector_extend_arr`, which indexes
`ext[i - start]`, produces exactly the appended list. -/
theorem C9_extend_vec_reads_out_of_bounds :
    Vector_extend_vec [10] [20] = none ∧
    Vector_extend_arr [10] [20] = some [10, 20] := by
  constructor <;> rfl

/-- C10: `GameWord::guess_letter` on an already-guessed letter (with
attempts remaining) returns `AlreadyGuessed` and returns the state
entirely unchanged, and the attempt count changes only on `Incorrect`
results, where it drops by exactly 1. -/
theorem C10_guess_letter_frame (g : GameWord) (letter : Char) :
    (0 < g.attempts → g.guesses.contains letter = true →
      g.guess_letter letter = some (.alreadyGuessed, g)) ∧
    (∀ st g', g.guess_letter letter = some (st, g') →
      (st = .incorrect → g'.attempts = g.attempts - 1) ∧
      (st ≠ .incorrect → g'.attempts = g.attempts)) := by
  constructor
  · intro h1 h2
    unfold GameWord.guess_letter
    rw [if_neg (by omega), if_pos h2]
  · intro st g' h
    unfold GameWord.guess_letter at h
    split at h
    · exact absurd h (by simp)
    · split at h
      · obtain ⟨rfl, rfl⟩ := Prod.mk.injEq .. ▸ Option.some.injEq .. ▸ h
        exact ⟨fun hc => absurd hc (by simp), fun _ => rfl⟩
      · split at h
        · obtain ⟨rfl, rfl⟩ := Prod.mk.injEq .. ▸ Option.some.injEq .. ▸ h
          exact ⟨fun _ => rfl, fun hc => absurd rfl hc⟩
        · obtain ⟨rfl, rfl⟩ := Prod.mk.injEq .. ▸ Option.some.injEq .. ▸ h
          exact ⟨fun hc => absurd hc (by simp), fun _ => rfl⟩

/-- C10 witness: a concrete repeated guess, instantiating
`C10_guess_letter_frame` at a state that has already guessed `a`. -/
theorem C10_guess_letter_frame_witness :
    (GameWord.mk ['a'] ['a', 'b'] ['a', '_'] [] 6 false).guess_letter 'a' =
      some (.alreadyGuessed, GameWord.mk ['a'] ['a', 'b'] ['a', '_'] [] 6 false) := by
  exact (C10_guess_letter_frame (GameWord.mk ['a'] ['a', 'b'] ['a', '_'] [] 6 false) 'a').1
    (by decide) (by decide)

/-- C7 counterexample: `config.toml` has no key supplying a language
filter or a concurrency limit — no key name even mentions language or
concurrency — so the configuration collaborator does not make
`language_filter` or `concurrency_limit` externally configurable (the
`mdex_tool` README's to-do list confirms: "Configurable language
filtering (\x22en\x22 is used internally)" is unchecked). -/
theorem C7_no_language_or_concurrency_key :
    roleProvided "language_filter" = false ∧
    roleProvided "concurrency_limit" = false := by
  constructor <;> rfl

/-- C7 (amended): the configuration collaborator supplies the other
eight roles the spec lists — `max_retries`, `backoff_factor`,
`backoff_jitter`, `backoff_max`, `request_timeout` (as
`get_timeout`/`post_timeout`), `page_size` (as `results_per_page`),
`save_root_path` (as `save.location`) and `max_title_length` — but not
`language_filter` or `concurrency_limit`. -/
theorem C7_config_supplies_eight_roles :
    (["max_retries", "backoff_factor", "backoff_jitter", "backoff_max",
      "request_timeout", "page_size", "save_root_path",
      "max_title_length"].all roleProvided) = true ∧
    roleProvided "language_filter" = false ∧
    roleProvided "concurrency_limit" = false := by
  refine ⟨?_, ?_, ?_⟩ <;> rfl

/-- Helper for C6: membership in the saved/missing lists produced by
walking an index list. -/
theorem downloadPages_mem (fetch : Nat → PageResult) (idxs : List Nat) (i : Nat) :
    (i ∈ (downloadPages fetch idxs).1 ↔ i ∈ idxs ∧ fetch i ≠ .failed) ∧
    (i ∈ (downloadPages fetch idxs).2 ↔ i ∈ idxs ∧ fetch i = .failed) := by
  induction idxs with
  | nil => simp [downloadPages]
  | cons j rest ih =>
      unfold downloadPages
      by_cases hij : i = j
      · subst hij
        cases hj : fetch i <;> simp [hj, ih.1, ih.2]
      · cases hj : fetch j <;> simp [hij, ih.1, ih.2, List.mem_cons]

/-- C6: a chapter's `DownloadResult` is complete exactly when every page
of the manifest reported `Ok`; otherwise it is partial, with exactly
the successful page indices present on disk and exactly the failed page
indices recorded as missing. -/
theorem C6_download_complete_iff_all_ok (fetch : Nat → PageResult)
    (manifest : List String) :
    ((download fetch manifest).complete = true ↔
      ∀ i < manifest.length, fetch i ≠ .failed) ∧
    (∀ i, i ∈ (download fetch manifest).missing ↔
      i < manifest.length ∧ fetch i = .failed) ∧
    (∀ i, i ∈ (download fetch manifest).saved ↔
      i < manifest.length ∧ fetch i ≠ .failed) := by
  have hmem := fun i => downloadPages_mem fetch (List.range manifest.length) i
  refine ⟨?_, ?_, ?_⟩
  · unfold download
    simp only [List.isEmpty_iff, List.eq_nil_iff_forall_not_mem]
    constructor
    · intro h i hi hfail
      exact h i ((hmem i).2.mpr ⟨List.mem_range.mpr hi, hfail⟩)
    · intro h i hi
      obtain ⟨hr, hf⟩ := (hmem i).2.mp hi
      exact h i (List.mem_range.mp hr) hf
  · intro i
    unfold download
    rw [(hmem i).2, List.mem_range]
  · intro i
    unfold download
    rw [(hmem i).1, List.mem_range]

/-- Helper for C5: one loop iteration below `total` requests `offset`
and recurses at `offset + page_size`. -/
theorem listLoop_step_lt {α : Type} (server : Nat → List α × Nat)
    (ps total offset fuel : Nat) (h : offset < total) :
    listLoop server ps total offset (fuel + 1) =
      (offset :: (listLoop server ps total (offset + ps) fuel).1,
       (server offset).1 ++ (listLoop server ps total (offset + ps) fuel).2) := by
  simp [listLoop, h]

/-- Helper for C5: the loop stops as soon as `offset ≥ total`. -/
theorem listLoop_step_ge {α : Type} (server : Nat → List α × Nat)
    (ps total offset fuel : Nat) (h : ¬ offset < total) :
    listLoop server ps total offset (fuel + 1) = ([], []) := by
  simp [listLoop, h]

/-- Helper for C5: the records accumulated by the loop are exactly the
concatenation, in order, of the pages served at the requested offsets. -/
theorem listLoop_records {α : Type} (server : Nat → List α × Nat) (ps total : Nat) :
    ∀ fuel offset, (listLoop server ps total offset fuel).2 =
      ((listLoop server ps total offset fuel).1.map (fun o => (server o).1)).flatten := by
  intro fuel
  induction fuel with
  | zero => intro offset; simp [listLoop]
  | succ n ih =>
      intro offset
      by_cases h : offset < total
      · rw [listLoop_step_lt server ps total offset n h]
        simp [ih]
      · rw [listLoop_step_ge server ps total offset n h]
        simp

/-- Helper for C5: every offset the loop requests lies in
`[offset, total)`, consecutive requested offsets differ by exactly
`page_size`, and the first requested offset (if any) is the starting
one. -/
theorem listLoop_offsets {α : Type} (server : Nat → List α × Nat) (ps total : Nat) :
    ∀ fuel offset,
      (∀ o ∈ (listLoop server ps total offset fuel).1, offset ≤ o ∧ o < total) ∧
      List.Chain' (fun a b => b = a + ps) (listLoop server ps total offset fuel).1 ∧
      ∀ o ∈ ((listLoop server ps total offset fuel).1).head?, o = offset := by
  intro fuel
  induction fuel with
  | zero => intro offset; simp [listLoop]
  | succ n ih =>
      intro offset
      by_cases h : offset < total
      · rw [listLoop_step_lt server ps total offset n h]
        obtain ⟨ihmem, ihchain, ihhead⟩ := ih (offset + ps)
        refine ⟨?_, ?_, ?_⟩
        · intro o ho
          rcases List.mem_cons.mp ho with rfl | ho
          · exact ⟨le_refl o, h⟩
          · exact ⟨le_trans (Nat.le_add_right offset ps) (ihmem o ho).1, (ihmem o ho).2⟩
        · rw [List.chain'_cons']
          exact ⟨fun y hy => ihhead y hy, ihchain⟩
        · simp
      · rw [listLoop_step_ge server ps total offset n h]
        simp

/-- C5: the Paginated Lister requests offset 0 first, then successive
offsets increased by `page_size`, all below the reported `total`; the
returned records are the concatenation of the served pages in request
order; and for an API reporting `total = 25` with `page_size = 10` it
issues exactly 3 requests, at offsets 0, 10 and 20, returning the three
pages concatenated in server order. -/
theorem C5_list_all_offsets_and_order {α : Type} (server : Nat → List α × Nat)
    (page_size : Nat) :
    ((list_all server page_size).2 =
      (((list_all server page_size).1).map (fun o => (server o).1)).flatten) ∧
    ((list_all server page_size).1).head? = some 0 ∧
    List.Chain' (fun a b => b = a + page_size) (list_all server page_size).1 ∧
    (∀ o ∈ (list_all server page_size).1, o = 0 ∨ o < (server 0).2) ∧
    ((server 0).2 = 25 → page_size = 10 →
      (list_all server page_size).1 = [0, 10, 20] ∧
      (list_all server page_size).2 =
        (server 0).1 ++ ((server 10).1 ++ (server 20).1)) := by
  obtain ⟨hmem, hchain, hhead⟩ :=
    listLoop_offsets server page_size (server 0).2 (server 0).2 page_size
  refine ⟨?_, ?_, ?_, ?_, ?_⟩
  · show (server 0).1 ++ _ = _
    rw [listLoop_records server page_size (server 0).2 (server 0).2 page_size]
    simp [list_all]
  · rfl
  · show List.Chain' _ (0 :: _)
    rw [List.chain'_cons']
    refine ⟨fun y hy => ?_, hchain⟩
    rw [hhead y hy]
    omega
  · intro o ho
    rcases List.mem_cons.mp ho with rfl | ho
    · exact Or.inl rfl
    · exact Or.inr (hmem o ho).2
  · intro h25 hps
    subst hps
    have e1 := listLoop_step_lt server 10 25 10 24 (by omega)
    have e2 := listLoop_step_lt server 10 25 20 23 (by omega)
    have e3 := listLoop_step_ge server 10 25 30 22 (by omega)
    norm_num at e1 e2 e3
    simp only [list_all]
    rw [h25, e1, e2, e3]
    simp

/-- C5 witness: a mocked API returning `total = 25` in pages of 10,
instantiated through `C5_list_all_offsets_and_order`. -/
theorem C5_list_all_offsets_and_order_witness :
    (list_all (fun o => ((List.range 10).map (o + ·), 25)) 10).1 = [0, 10, 20] := by
  exact ((C5_list_all_offsets_and_order
    (fun o => ((List.range 10).map (o + ·), 25)) 10).2.2.2.2 rfl rfl).1

/-- C2: the Chapter Catalog Builder keeps every language-matching record
whose chapter-number string fails numeric parse as its own singleton
catalog entry, with no sort key (the "Unknown" marker) and the
"Ch. Unknown" label; and more generally no language-matching record is
absent from the catalog — each belongs to some catalog entry's member
group. -/
theorem C2_build_keeps_unparsable_records (records : List ChapterRecord)
    (lf : String) (r : ChapterRecord) (hmem : r ∈ records) (hlang : r.lang = lf) :
    (numericParse r.num = none →
      ∃ c ∈ build records lf, c.members = [r] ∧ c.chosen = r ∧ c.sortKey = none ∧
        c.label = chapterLabel none r.num r.title) ∧
    (∃ c ∈ build records lf, r ∈ c.members) := by
  have hkept : r ∈ records.filter (fun x => x.lang = lf) :=
    List.mem_filter.mpr ⟨hmem, by simp [hlang]⟩
  simp only [build]
  constructor
  · intro hnone
    refine ⟨⟨[r], r, none, chapterLabel none r.num r.title⟩, ?_, rfl, rfl, rfl, rfl⟩
    rw [List.mem_insertionSort, List.mem_append]
    right
    rw [List.mem_map]
    exact ⟨r, List.mem_filter.mpr ⟨hkept, by simp [hnone]⟩, rfl⟩
  · cases hq : numericParse r.num with
    | none =>
        refine ⟨⟨[r], r, none, chapterLabel none r.num r.title⟩, ?_, ?_⟩
        · rw [List.mem_insertionSort, List.mem_append]
          right
          rw [List.mem_map]
          exact ⟨r, List.mem_filter.mpr ⟨hkept, by simp [hq]⟩, rfl⟩
        · exact List.mem_singleton.mpr rfl
    | some q =>
        have hqkeys : q ∈ ((records.filter (fun x => x.lang = lf)).filterMap
            (fun x => numericParse x.num)).dedup :=
          List.mem_dedup.mpr (List.mem_filterMap.mpr ⟨r, hkept, hq⟩)
        have hrfil : r ∈ (records.filter (fun x => x.lang = lf)).filter
            (fun x => numericParse x.num = some q) :=
          List.mem_filter.mpr ⟨hkept, by simp [hq]⟩
        cases hfl : (records.filter (fun x => x.lang = lf)).filter
            (fun x => numericParse x.num = some q) with
        | nil =>
            rw [hfl] at hrfil
            exact absurd hrfil (List.not_mem_nil r)
        | cons m rest =>
            refine ⟨⟨m :: rest, chooseRelease m rest, some q,
              chapterLabel (some q) (chooseRelease m rest).num
                (chooseRelease m rest).title⟩, ?_, ?_⟩
            · rw [List.mem_insertionSort, List.mem_append]
              left
              rw [List.mem_filterMap]
              refine ⟨q, hqkeys, ?_⟩
              rw [hfl]
            · rw [hfl] at hrfil
              exact hrfil

/-- C2 witness: a concrete record with an empty chapter-number string in
the filtered language survives as its own "Unknown" singleton entry,
via `C2_build_keeps_unparsable_records`. -/
theorem C2_build_keeps_unparsable_records_witness :
    ∃ c ∈ build [ChapterRecord.mk 7 "" none "en" 1 5] "en",
      c.members = [ChapterRecord.mk 7 "" none "en" 1 5] ∧
      c.chosen = ChapterRecord.mk 7 "" none "en" 1 5 ∧
      c.sortKey = none ∧
      c.label = chapterLabel none "" none := by
  exact (C2_build_keeps_unparsable_records [ChapterRecord.mk 7 "" none "en" 1 5]
    "en" (ChapterRecord.mk 7 "" none "en" 1 5) (by simp) rfl).1 rfl

/-- Helper: the executor with no attempts left sends nothing and reports
exhaustion with the last cause. -/
theorem execGo_zero (transport : Nat → TransportResp) (ε : Nat → ℚ) (cfg : RetryConfig)
    (attempt : Nat) (last : Option RequestOutcome) (st : ThrottleState) (now : ℚ) :
    execGo transport ε cfg 0 attempt last st now = ([], .exhausted last) := rfl

/-- Helper: an attempt classified `Success` produces one send event and
returns immediately. -/
theorem execGo_succ_success (transport : Nat → TransportResp) (ε : Nat → ℚ)
    (cfg : RetryConfig) (rem attempt : Nat) (last : Option RequestOutcome)
    (st : ThrottleState) (now : ℚ) (s : Nat)
    (h : classify (transport attempt) = .success s) :
    execGo transport ε cfg (rem + 1) attempt last st now =
      ([⟨waitIfBlocked st now, .success s⟩], .ok s) := by
  simp [execGo, h]

/-- Helper: an attempt classified `FatalFailure` produces one send event
and returns the error immediately. -/
theorem execGo_succ_fatal (transport : Nat → TransportResp) (ε : Nat → ℚ)
    (cfg : RetryConfig) (rem attempt : Nat) (last : Option RequestOutcome)
    (st : ThrottleState) (now : ℚ) (s : Nat)
    (h : classify (transport attempt) = .fatalFailure s) :
    execGo transport ε cfg (rem + 1) attempt last st now =
      ([⟨waitIfBlocked st now, .fatalFailure s⟩], .fatal s) := by
  simp [execGo, h]

/-- Helper: an attempt classified `RateLimited` records the new
`blocked_until` and loops back without advancing the clock (the wait
happens on the next iteration). -/
theorem execGo_succ_rateLimited (transport : Nat → TransportResp) (ε : Nat → ℚ)
    (cfg : RetryConfig) (rem attempt : Nat) (last : Option RequestOutcome)
    (st : ThrottleState) (now : ℚ) (t : ℚ)
    (h : classify (transport attempt) = .rateLimited t) :
    execGo transport ε cfg (rem + 1) attempt last st now =
      (⟨waitIfBlocked st now, .rateLimited t⟩ ::
        (execGo transport ε cfg rem (attempt + 1) (some (.rateLimited t))
          (st.record (.rateLimited t)) (waitIfBlocked st now)).1,
       (execGo transport ε cfg rem (attempt + 1) (some (.rateLimited t))
          (st.record (.rateLimited t)) (waitIfBlocked st now)).2) := by
  simp [execGo, h]

/-- Helper: an attempt classified `TransientFailure` sleeps the backoff
delay for this attempt and loops. -/
theorem execGo_succ_transient (transport : Nat → TransportResp) (ε : Nat → ℚ)
    (cfg : RetryConfig) (rem attempt : Nat) (last : Option RequestOutcome)
    (st : ThrottleState) (now : ℚ)
    (h : classify (transport attempt) = .transientFailure) :
    execGo transport ε cfg (rem + 1) attempt last st now =
      (⟨waitIfBlocked st now, .transientFailure⟩ ::
        (execGo transport ε cfg rem (attempt + 1) (some .transientFailure)
          (st.record .transientFailure)
          (waitIfBlocked st now + backoffDelay cfg attempt (ε attempt))).1,
       (execGo transport ε cfg rem (attempt + 1) (some .transientFailure)
          (st.record .transientFailure)
          (waitIfBlocked st now + backoffDelay cfg attempt (ε attempt))).2) := by
  simp [execGo, h]

/-- Helper: waiting out the throttle never moves the clock backwards. -/
theorem waitIfBlocked_ge_now (st : ThrottleState) (now : ℚ) :
    now ≤ waitIfBlocked st now := by
  unfold waitIfBlocked ThrottleState.may_request
  cases hb : st.blocked_until with
  | none => simp
  | some t =>
      by_cases hle : t ≤ now
      · simp [hle]
      · simp [hle]
        exact le_of_not_le hle

/-- Helper: if `blocked_until` is set, the next send happens no earlier
than it. -/
theorem blocked_le_waitIfBlocked (st : ThrottleState) (now t : ℚ)
    (hb : st.blocked_until = some t) : t ≤ waitIfBlocked st now := by
  unfold waitIfBlocked ThrottleState.may_request
  rw [hb]
  by_cases hle : t ≤ now
  · simp [hle]
  · simp [hle]

/-- Helper for C1: while `blocked_until = some t` is in force, every
send event up to (and including) the first rate-limited one happens at
a time `≥ t`: `Success` and `FatalFailure` end the trace, and
`TransientFailure` leaves `blocked_until` untouched. -/
theorem execGo_blocked_lb (transport : Nat → TransportResp) (ε : Nat → ℚ)
    (cfg : RetryConfig) :
    ∀ (rem attempt : Nat) (last : Option RequestOutcome) (st : ThrottleState)
      (now t : ℚ) (pre : List ExecEvent) (f : ExecEvent) (post : List ExecEvent),
      st.blocked_until = some t →
      (execGo transport ε cfg rem attempt last st now).1 = pre ++ f :: post →
      (∀ m ∈ pre, m.isRateLimited = false) →
      t ≤ f.time := by
  intro rem
  induction rem with
  | zero =>
      intro attempt last st now t pre f post hb heq hpre
      rw [execGo_zero] at heq
      exact absurd heq.symm (List.append_ne_nil_of_right_ne_nil pre (List.cons_ne_nil f post))
  | succ n ih =>
      intro attempt last st now t pre f post hb heq hpre
      cases hc : classify (transport attempt) with
      | success s =>
          rw [execGo_succ_success transport ε cfg n attempt last st now s hc] at heq
          cases pre with
          | nil =>
              rw [List.nil_append] at heq
              injection heq with h1 h2
              rw [← h1]
              exact blocked_le_waitIfBlocked st now t hb
          | cons p pre' =>
              rw [List.cons_append] at heq
              injection heq with h1 h2
              simp at h2
      | fatalFailure s =>
          rw [execGo_succ_fatal transport ε cfg n attempt last st now s hc] at heq
          cases pre with
          | nil =>
              rw [List.nil_append] at heq
              injection heq with h1 h2
              rw [← h1]
              exact blocked_le_waitIfBlocked st now t hb
          | cons p pre' =>
              rw [List.cons_append] at heq
              injection heq with h1 h2
              simp at h2
      | rateLimited t0 =>
          rw [execGo_succ_rateLimited transport ε cfg n attempt last st now t0 hc] at heq
          cases pre with
          | nil =>
              rw [List.nil_append] at heq
              injection heq with h1 h2
              rw [← h1]
              exact blocked_le_waitIfBlocked st now t hb
          | cons p pre' =>
              rw [List.cons_append] at heq
              injection heq with h1 h2
              have hp := hpre p (List.mem_cons_self p pre')
              rw [← h1] at hp
              simp [ExecEvent.isRateLimited] at hp
      | transientFailure =>
          rw [execGo_succ_transient transport ε cfg n attempt last st now hc] at heq
          cases pre with
          | nil =>
              rw [List.nil_append] at heq
              injection heq with h1 h2
              rw [← h1]
              exact blocked_le_waitIfBlocked st now t hb
          | cons p pre' =>
              rw [List.cons_append] at heq
              injection heq with h1 h2
              have hb' : (st.record .transientFailure).blocked_until = some t := by
                simp [ThrottleState.record, hb]
              exact ih (attempt + 1) (some .transientFailure)
                (st.record .transientFailure)
                (waitIfBlocked st now + backoffDelay cfg attempt (ε attempt))
                t pre' f post hb' h2 (fun m hm => hpre m (List.mem_cons_of_mem p hm))

/-- Helper for C1: if event `e` is rate-limited with advertised
timestamp `ts` and no later rate-limited event occurs before event `f`,
then `f` is sent no earlier than `ts`. -/
theorem execGo_retry_after_lb (transport : Nat → TransportResp) (ε : Nat → ℚ)
    (cfg : RetryConfig) :
    ∀ (rem attempt : Nat) (last : Option RequestOutcome) (st : ThrottleState)
      (now : ℚ) (pre : List ExecEvent) (e : ExecEvent) (mid : List ExecEvent)
      (f : ExecEvent) (post : List ExecEvent) (ts : ℚ),
      (execGo transport ε cfg rem attempt last st now).1 =
        pre ++ e :: (mid ++ f :: post) →
      e.outcome = .rateLimited ts →
      (∀ m ∈ mid, m.isRateLimited = false) →
      ts ≤ f.time := by
  intro rem
  induction rem with
  | zero =>
      intro attempt last st now pre e mid f post ts heq he hmid
      rw [execGo_zero] at heq
      exact absurd heq.symm
        (List.append_ne_nil_of_right_ne_nil pre (List.cons_ne_nil e (mid ++ f :: post)))
  | succ n ih =>
      intro attempt last st now pre e mid f post ts heq he hmid
      cases hc : classify (transport attempt) with
      | success s =>
          rw [execGo_succ_success transport ε cfg n attempt last st now s hc] at heq
          cases pre with
          | nil =>
              rw [List.nil_append] at heq
              injection heq with h1 h2
              exact absurd h2.symm
                (List.append_ne_nil_of_right_ne_nil mid (List.cons_ne_nil f post))
          | cons p pre' =>
              rw [List.cons_append] at heq
              injection heq with h1 h2
              simp at h2
      | fatalFailure s =>
          rw [execGo_succ_fatal transport ε cfg n attempt last st now s hc] at heq
          cases pre with
          | nil =>
              rw [List.nil_append] at heq
              injection heq with h1 h2
              exact absurd h2.symm
                (List.append_ne_nil_of_right_ne_nil mid (List.cons_ne_nil f post))
          | cons p pre' =>
              rw [List.cons_append] at heq
              injection heq with h1 h2
              simp at h2
      | rateLimited t0 =>
          rw [execGo_succ_rateLimited transport ε cfg n attempt last st now t0 hc] at heq
          cases pre with
          | nil =>
              rw [List.nil_append] at heq
              injection heq with h1 h2
              have hts : t0 = ts := by
                rw [← h1] at he
                simpa [ExecEvent.outcome] using he
              have hb' : ((st.record (.rateLimited t0)).blocked_until) = some ts := by
                simp [ThrottleState.record, hts]
              exact execGo_blocked_lb transport ε cfg n (attempt + 1)
                (some (.rateLimited t0)) (st.record (.rateLimited t0))
                (waitIfBlocked st now) ts mid f post hb' h2 hmid
          | cons p pre' =>
              rw [List.cons_append] at heq
              injection heq with h1 h2
              exact ih (attempt + 1) (some (.rateLimited t0))
                (st.record (.rateLimited t0)) (waitIfBlocked st now)
                pre' e mid f post ts h2 he hmid
      | transientFailure =>
          rw [execGo_succ_transient transport ε cfg n attempt last st now hc] at heq
          cases pre with
          | nil =>
              rw [List.nil_append] at heq
              injection heq with h1 h2
              rw [← h1] at he
              simp [ExecEvent.outcome] at he
          | cons p pre' =>
              rw [List.cons_append] at heq
              injection heq with h1 h2
              exact ih (attempt + 1) (some .transientFailure)
                (st.record .transientFailure)
                (waitIfBlocked st now + backoffDelay cfg attempt (ε attempt))
                pre' e mid f post ts h2 he hmid

/-- C1: the Resilient Request Executor never sends a request before the
most recently advertised retry timestamp — for any simulated transport
and jitter draws, if the send trace contains a rate-limited event
advertising `ts` and no later rate-limited event occurs before some
later send `f`, then `f` goes out at a time `≥ ts`. -/
theorem C1_executor_respects_retry_after (cfg : RetryConfig)
    (transport : Nat → TransportResp) (ε : Nat → ℚ) (st : ThrottleState) (now : ℚ)
    (pre : List ExecEvent) (e : ExecEvent) (mid : List ExecEvent) (f : ExecEvent)
    (post : List ExecEvent) (ts : ℚ)
    (heq : (execute cfg transport ε st now).1 = pre ++ e :: (mid ++ f :: post))
    (he : e.outcome = .rateLimited ts)
    (hmid : ∀ m ∈ mid, m.isRateLimited = false) :
    ts ≤ f.time := by
  exact execGo_retry_after_lb transport ε cfg cfg.max_retries 1 none st now
    pre e mid f post ts heq he hmid

/-- C1 witness: a transport answering 429 (retry at 100) then 200; the
executor's second send leaves at exactly time 100, and
`C1_executor_respects_retry_after` applies with all hypotheses
discharged by computation. -/
theorem C1_executor_respects_retry_after_witness :
    (execute shippedRetryConfig
      (fun att => if att = 1 then .http 429 (some 100) else .http 200 none)
      (fun _ => 0) ⟨none, 0⟩ 0).1 =
      [⟨0, .rateLimited 100⟩, ⟨100, .success 200⟩] ∧
    (100 : ℚ) ≤ (ExecEvent.mk 100 (.success 200)).time := by
  constructor
  · rfl
  · exact C1_executor_respects_retry_after shippedRetryConfig
      (fun att => if att = 1 then .http 429 (some 100) else .http 200 none)
      (fun _ => 0) ⟨none, 0⟩ 0 [] ⟨0, .rateLimited 100⟩ [] ⟨100, .success 200⟩ [] 100
      (by rfl) rfl (by simp)

/-- Helper for C3: a fatal event is always the last event of the trace,
and the executor's result is that fatal error. -/
theorem execGo_fatal_stops (transport : Nat → TransportResp) (ε : Nat → ℚ)
    (cfg : RetryConfig) :
    ∀ (rem attempt : Nat) (last : Option RequestOutcome) (st : ThrottleState)
      (now : ℚ) (pre : List ExecEvent) (e : ExecEvent) (post : List ExecEvent)
      (s : Nat),
      (execGo transport ε cfg rem attempt last st now).1 = pre ++ e :: post →
      e.outcome = .fatalFailure s →
      post = [] ∧ (execGo transport ε cfg rem attempt last st now).2 = .fatal s := by
  intro rem
  induction rem with
  | zero =>
      intro attempt last st now pre e post s heq he
      rw [execGo_zero] at heq
      exact absurd heq.symm
        (List.append_ne_nil_of_right_ne_nil pre (List.cons_ne_nil e post))
  | succ n ih =>
      intro attempt last st now pre e post s heq he
      cases hc : classify (transport attempt) with
      | success s0 =>
          rw [execGo_succ_success transport ε cfg n attempt last st now s0 hc] at heq ⊢
          cases pre with
          | nil =>
              rw [List.nil_append] at heq
              injection heq with h1 h2
              rw [← h1] at he
              simp [ExecEvent.outcome] at he
          | cons p pre' =>
              rw [List.cons_append] at heq
              injection heq with h1 h2
              simp at h2
      | fatalFailure s0 =>
          rw [execGo_succ_fatal transport ε cfg n attempt last st now s0 hc] at heq ⊢
          cases pre with
          | nil =>
              rw [List.nil_append] at heq
              injection heq with h1 h2
              have hs : s0 = s := by
                rw [← h1] at he
                simpa [ExecEvent.outcome] using he
              exact ⟨h2.symm, by rw [hs]⟩
          | cons p pre' =>
              rw [List.cons_append] at heq
              injection heq with h1 h2
              simp at h2
      | rateLimited t0 =>
          rw [execGo_succ_rateLimited transport ε cfg n attempt last st now t0 hc] at heq ⊢
          cases pre with
          | nil =>
              rw [List.nil_append] at heq
              injection heq with h1 h2
              rw [← h1] at he
              simp [ExecEvent.outcome] at he
          | cons p pre' =>
              rw [List.cons_append] at heq
              injection heq with h1 h2
              exact ih (attempt + 1) (some (.rateLimited t0))
                (st.record (.rateLimited t0)) (waitIfBlocked st now) pre' e post s h2 he
      | transientFailure =>
          rw [execGo_succ_transient transport ε cfg n attempt last st now hc] at heq ⊢
          cases pre with
          | nil =>
              rw [List.nil_append] at heq
              injection heq with h1 h2
              rw [← h1] at he
              simp [ExecEvent.outcome] at he
          | cons p pre' =>
              rw [List.cons_append] at heq
              injection heq with h1 h2
              exact ih (attempt + 1) (some .transientFailure)
                (st.record .transientFailure)
                (waitIfBlocked st now + backoffDelay cfg attempt (ε attempt))
                pre' e post s h2 he

/-- C3: HTTP 4xx statuses other than 429 classify as `FatalFailure`, and
a `FatalFailure` attempt is never retried: the executor returns the
fatal error immediately, so the fatal send event is the last event of
the trace and the result is that error. -/
theorem C3_fatal_never_retried :
    (∀ (s : Nat) (hdr : Option ℚ), 400 ≤ s → s < 500 → s ≠ 429 →
      classify (.http s hdr) = .fatalFailure s) ∧
    (∀ (cfg : RetryConfig) (transport : Nat → TransportResp) (ε : Nat → ℚ)
        (st : ThrottleState) (now : ℚ) (pre : List ExecEvent) (e : ExecEvent)
        (post : List ExecEvent) (s : Nat),
      (execute cfg transport ε st now).1 = pre ++ e :: post →
      e.outcome = .fatalFailure s →
      post = [] ∧ (execute cfg transport ε st now).2 = .fatal s) := by
  constructor
  · intro s hdr h4 h5 h429
    show (if s = 429 then
        match hdr with
        | some t => RequestOutcome.rateLimited t
        | none => RequestOutcome.transientFailure
      else if 500 ≤ s then RequestOutcome.transientFailure
      else if 400 ≤ s then RequestOutcome.fatalFailure s
      else RequestOutcome.success s) = RequestOutcome.fatalFailure s
    rw [if_neg h429, if_neg (by omega), if_pos h4]
  · intro cfg transport ε st now pre e post s heq he
    exact execGo_fatal_stops transport ε cfg cfg.max_retries 1 none st now
      pre e post s heq he

/-- C3 witness: a transport answering 404 on the first attempt; the
trace is a single fatal event and the executor result is the fatal
error, via `C3_fatal_never_retried`. -/
theorem C3_fatal_never_retried_witness :
    classify (.http 404 none) = .fatalFailure 404 ∧
    (execute shippedRetryConfig (fun _ => .http 404 none) (fun _ => 0)
      ⟨none, 0⟩ 0).2 = .fatal 404 := by
  constructor
  · exact C3_fatal_never_retried.1 404 none (by omega) (by omega) (by omega)
  · exact (C3_fatal_never_retried.2 shippedRetryConfig (fun _ => .http 404 none)
      (fun _ => 0) ⟨none, 0⟩ 0 [] ⟨0, .fatalFailure 404⟩ [] 404 (by rfl) rfl).2

/-- Helper for C4: the first send of any executor run happens no earlier
than the starting clock. -/
theorem execGo_head_ge (transport : Nat → TransportResp) (ε : Nat → ℚ)
    (cfg : RetryConfig) (rem attempt : Nat) (last : Option RequestOutcome)
    (st : ThrottleState) (now : ℚ) (f : ExecEvent) (rest : List ExecEvent)
    (heq : (execGo transport ε cfg rem attempt last st now).1 = f :: rest) :
    now ≤ f.time := by
  cases rem with
  | zero =>
      rw [execGo_zero] at heq
      exact absurd heq (List.noConfusion)
  | succ n =>
      cases hc : classify (transport attempt) with
      | success s =>
          rw [execGo_succ_success transport ε cfg n attempt last st now s hc] at heq
          injection heq with h1 h2
          rw [← h1]
          exact waitIfBlocked_ge_now st now
      | fatalFailure s =>
          rw [execGo_succ_fatal transport ε cfg n attempt last st now s hc] at heq
          injection heq with h1 h2
          rw [← h1]
          exact waitIfBlocked_ge_now st now
      | rateLimited t0 =>
          rw [execGo_succ_rateLimited transport ε cfg n attempt last st now t0 hc] at heq
          injection heq with h1 h2
          rw [← h1]
          exact waitIfBlocked_ge_now st now
      | transientFailure =>
          rw [execGo_succ_transient transport ε cfg n attempt last st now hc] at heq
          injection heq with h1 h2
          rw [← h1]
          exact waitIfBlocked_ge_now st now

/-- Helper for C4: after a transient failure on the attempt at trace
position `pre.length` (attempt number `attempt + pre.length`), the next
send happens no earlier than the event's time plus the backoff delay
computed for that attempt. -/
theorem execGo_transient_gap (transport : Nat → TransportResp) (ε : Nat → ℚ)
    (cfg : RetryConfig) :
    ∀ (rem attempt : Nat) (last : Option RequestOutcome) (st : ThrottleState)
      (now : ℚ) (pre : List ExecEvent) (e f : ExecEvent) (post : List ExecEvent),
      (execGo transport ε cfg rem attempt last st now).1 = pre ++ e :: f :: post →
      e.outcome = .transientFailure →
      e.time + backoffDelay cfg (attempt + pre.length) (ε (attempt + pre.length)) ≤
        f.time := by
  intro rem
  induction rem with
  | zero =>
      intro attempt last st now pre e f post heq he
      rw [execGo_zero] at heq
      exact absurd heq.symm
        (List.append_ne_nil_of_right_ne_nil pre (List.cons_ne_nil e (f :: post)))
  | succ n ih =>
      intro attempt last st now pre e f post heq he
      cases hc : classify (transport attempt) with
      | success s =>
          rw [execGo_succ_success transport ε cfg n attempt last st now s hc] at heq
          cases pre with
          | nil =>
              rw [List.nil_append] at heq
              injection heq with h1 h2
              simp at h2
          | cons p pre' =>
              rw [List.cons_append] at heq
              injection heq with h1 h2
              simp at h2
      | fatalFailure s =>
          rw [execGo_succ_fatal transport ε cfg n attempt last st now s hc] at heq
          cases pre with
          | nil =>
              rw [List.nil_append] at heq
              injection heq with h1 h2
              simp at h2
          | cons p pre' =>
              rw [List.cons_append] at heq
              injection heq with h1 h2
              simp at h2
      | rateLimited t0 =>
          rw [execGo_succ_rateLimited transport ε cfg n attempt last st now t0 hc] at heq
          cases pre with
          | nil =>
              rw [List.nil_append] at heq
              injection heq with h1 h2
              rw [← h1] at he
              simp [ExecEvent.outcome] at he
          | cons p pre' =>
              rw [List.cons_append] at heq
              injection heq with h1 h2
              have hidx : attempt + (p :: pre').length = (attempt + 1) + pre'.length := by
                simp [List.length_cons]
                omega
              rw [hidx]
              exact ih (attempt + 1) (some (.rateLimited t0))
                (st.record (.rateLimited t0)) (waitIfBlocked st now) pre' e f post h2 he
      | transientFailure =>
          rw [execGo_succ_transient transport ε cfg n attempt last st now hc] at heq
          cases pre with
          | nil =>
              rw [List.nil_append] at heq
              injection heq with h1 h2
              have hnext := execGo_head_ge transport ε cfg n (attempt + 1)
                (some .transientFailure) (st.record .transientFailure)
                (waitIfBlocked st now + backoffDelay cfg attempt (ε attempt)) f post h2
              rw [← h1]
              simpa using hnext
          | cons p pre' =>
              rw [List.cons_append] at heq
              injection heq with h1 h2
              have hidx : attempt + (p :: pre').length = (attempt + 1) + pre'.length := by
                simp [List.length_cons]
                omega
              rw [hidx]
              exact ih (attempt + 1) (some .transientFailure)
                (st.record .transientFailure)
                (waitIfBlocked st now + backoffDelay cfg attempt (ε attempt))
                pre' e f post h2 he

/-- C4: with the shipped configuration (`backoff_factor = 1`,
`backoff_jitter = 0.5`, `backoff_max = 30`), the backoff delay for
attempt `n ≥ 1` with any jitter draw in `[-0.5, 0.5]` lies within
`[min(2^(n-1), 30) - 0.5, min(2^(n-1), 30) + 0.5]` — the spec's
interval `backoff_factor * 2^(n-1) ± backoff_jitter`, clamped to
`backoff_max`; moreover the executor actually sleeps that delay: the
send following a transient failure at attempt `n = 1 + pre.length`
happens no earlier than the failure's send time plus the delay. -/
theorem C4_backoff_delay_bounds :
    (∀ (n : Nat) (ε : ℚ), 1 ≤ n →
      -shippedRetryConfig.backoff_jitter ≤ ε →
      ε ≤ shippedRetryConfig.backoff_jitter →
      min (shippedRetryConfig.backoff_factor * 2 ^ (n - 1))
          shippedRetryConfig.backoff_max - shippedRetryConfig.backoff_jitter ≤
        backoffDelay shippedRetryConfig n ε ∧
      backoffDelay shippedRetryConfig n ε ≤
        min (shippedRetryConfig.backoff_factor * 2 ^ (n - 1))
          shippedRetryConfig.backoff_max + shippedRetryConfig.backoff_jitter) ∧
    (∀ (transport : Nat → TransportResp) (ε : Nat → ℚ) (st : ThrottleState)
        (now : ℚ) (pre : List ExecEvent) (e f : ExecEvent) (post : List ExecEvent),
      (execute shippedRetryConfig transport ε st now).1 = pre ++ e :: f :: post →
      e.outcome = .transientFailure →
      e.time + backoffDelay shippedRetryConfig (1 + pre.length) (ε (1 + pre.length)) ≤
        f.time) := by
  constructor
  · intro n ε h1 hlo hhi
    unfold backoffDelay
    constructor
    · linarith
    · linarith
  · intro transport ε st now pre e f post heq he
    exact execGo_transient_gap transport ε shippedRetryConfig
      shippedRetryConfig.max_retries 1 none st now pre e f post heq he

/-- Helper for the C4 witness: the concrete send trace of the executor
against `exampleTransportTransient` — a transient failure sent at time
0, then a success sent at time 1 (after the backoff sleep of length
`min(1 * 2^0, 30) + 0 = 1`). -/
theorem exampleTransientTrace :
    (execute shippedRetryConfig exampleTransportTransient zeroJitter
      ⟨none, 0⟩ 0).1 = [⟨0, .transientFailure⟩, ⟨1, .success 200⟩] := by
  have h1 : classify (exampleTransportTransient 1) = .transientFailure := rfl
  have h2 : classify (exampleTransportTransient 2) = .success 200 := rfl
  show (execGo exampleTransportTransient zeroJitter shippedRetryConfig 5 1 none
    ⟨none, 0⟩ 0).1 = _
  rw [execGo_succ_transient exampleTransportTransient zeroJitter shippedRetryConfig
    4 1 none ⟨none, 0⟩ 0 h1,
    execGo_succ_success exampleTransportTransient zeroJitter shippedRetryConfig
    3 2 (some .transientFailure)
    ((⟨none, 0⟩ : ThrottleState).record .transientFailure)
    (waitIfBlocked ⟨none, 0⟩ 0 + backoffDelay shippedRetryConfig 1 (zeroJitter 1))
    200 h2]
  simp [waitIfBlocked, ThrottleState.may_request, ThrottleState.record,
    backoffDelay, shippedRetryConfig, zeroJitter]

/-- C4 witness: attempt 1 with zero jitter gives delay 1, inside
`[0.5, 1.5]`; and a concrete net-error-then-success run waits at least
that delay between its two sends — both via `C4_backoff_delay_bounds`. -/
theorem C4_backoff_delay_bounds_witness :
    (min (shippedRetryConfig.backoff_factor * 2 ^ (1 - 1))
        shippedRetryConfig.backoff_max - shippedRetryConfig.backoff_jitter ≤
      backoffDelay shippedRetryConfig 1 0 ∧
      backoffDelay shippedRetryConfig 1 0 ≤
        min (shippedRetryConfig.backoff_factor * 2 ^ (1 - 1))
          shippedRetryConfig.backoff_max + shippedRetryConfig.backoff_jitter) ∧
    (ExecEvent.mk 0 .transientFailure).time +
        backoffDelay shippedRetryConfig (1 + (List.length ([] : List ExecEvent)))
          (zeroJitter (1 + (List.length ([] : List ExecEvent)))) ≤
      (ExecEvent.mk 1 (.success 200)).time := by
  constructor
  · exact C4_backoff_delay_bounds.1 1 0 (by norm_num)
      (by norm_num [shippedRetryConfig]) (by norm_num [shippedRetryConfig])
  · exact C4_backoff_delay_bounds.2 exampleTransportTransient zeroJitter
      ⟨none, 0⟩ 0 [] ⟨0, .transientFailure⟩ ⟨1, .success 200⟩ []
      exampleTransientTrace rfl
